import Mathlib

/-!
# Verification of the hauki opening-hours specification

This file gives a shallow embedding of the parts of the `hauki` repository
that the specification's claims are about:

* the Time Element value type and the Interval Combiner
  (`combine_and_apply_override`), modelled from the specification because
  `hours/models.py` is not part of the provided sources — the behaviour is
  cross-checked against the reference tests in
  `hours/tests/test_time_element.py`;
* the Period Resolver (`resolve`), likewise modelled from the specification;
* the data migration `0012_add_end_time_on_next_day_to_timespan.py`;
* the importer's `save_period` from `hours/importer/base.py`;
* `HaukiSignedAuthentication.authenticate` from `hours/authentication.py`.

Times of day are represented as minutes since midnight (natural numbers),
dates as day ordinals.
-/

/-- Resource state of an interval (`hours.enums.State`).  The reference
tests exercise `OPEN`, `CLOSED` and `undefined`; the remaining states of the
enum behave identically for the combiner, so three constructors suffice for
the model. -/
inductive State where
  | OPEN
  | CLOSED
  | UNDEFINED
deriving DecidableEq, Repr

/-- Injective numbering of the states, used only as a sort tiebreaker. -/
def State.idx : State → Nat
  | .OPEN => 0
  | .CLOSED => 1
  | .UNDEFINED => 2

/-- All states of the enumeration. -/
def allStates : List State := [State.OPEN, State.CLOSED, State.UNDEFINED]

/-- Modelled from the spec (§3, §4.1): the resolved unit.  `start_time` and
`end_time` are minutes since midnight (possibly ≥ 1440 for intervals that the
resolver extended past midnight, §4.4 step 4); `none` means the field is
unset, which is meaningful together with `full_day`.  Two Time Elements are
equal iff all fields match. -/
structure TimeElement where
  start_time : Option Nat
  end_time : Option Nat
  resource_state : State
  override : Bool
  full_day : Bool
deriving DecidableEq, Repr

/-- Minutes in a day. -/
def dayMinutes : Nat := 1440

/-- Start of the element's interval for comparison purposes; a full-day
element spans the whole day (§4.1). -/
def elemStart (e : TimeElement) : Nat :=
  if e.full_day then 0 else e.start_time.getD 0

/-- End of the element's interval for comparison purposes; a full-day
element spans the whole day (§4.1). -/
def elemEnd (e : TimeElement) : Nat :=
  if e.full_day then dayMinutes else e.end_time.getD dayMinutes

/-- Two elements overlap or touch: the closed intervals intersect. -/
def overlapsB (a b : TimeElement) : Bool :=
  decide (elemStart a ≤ elemEnd b) && decide (elemStart b ≤ elemEnd a)

/-- Encoding of an optional time used for ordering (`none` sorts first). -/
def optEnc : Option Nat → Nat
  | none => 0
  | some t => t + 1

/-- Rank making full-day elements sort first (§4.2 step 4). -/
def fdRank (e : TimeElement) : Nat := if e.full_day then 0 else 1

/-- Bit encoding of the override flag, used only as a sort tiebreaker. -/
def ovBit (b : Bool) : Nat := cond b 1 0

/-- The total order used to sort resolved elements: by `start_time`
ascending with full-day elements first (§4.2 step 4), with a fixed
deterministic tiebreak on the remaining fields so that the order is
antisymmetric. -/
def teLE (a b : TimeElement) : Prop :=
  fdRank a < fdRank b ∨
    (fdRank a = fdRank b ∧
      (optEnc a.start_time < optEnc b.start_time ∨
        (optEnc a.start_time = optEnc b.start_time ∧
          (optEnc a.end_time < optEnc b.end_time ∨
            (optEnc a.end_time = optEnc b.end_time ∧
              (State.idx a.resource_state < State.idx b.resource_state ∨
                (State.idx a.resource_state = State.idx b.resource_state ∧
                  ovBit a.override ≤ ovBit b.override)))))))

instance : DecidableRel teLE := fun a b => by
  unfold teLE
  infer_instance

instance : IsTotal TimeElement teLE := by
  constructor
  intro a b
  unfold teLE
  omega

instance : IsTrans TimeElement teLE := by
  constructor
  intro a b c hab hbc
  unfold teLE at *
  omega

instance : IsAntisymm TimeElement teLE := by
  constructor
  intro a b hab hba
  have hkeys : fdRank a = fdRank b ∧ optEnc a.start_time = optEnc b.start_time ∧
      optEnc a.end_time = optEnc b.end_time ∧
      State.idx a.resource_state = State.idx b.resource_state ∧
      ovBit a.override = ovBit b.override := by
    unfold teLE at hab hba
    omega
  obtain ⟨hf, hs, he, hr, ho⟩ := hkeys
  have hfd : a.full_day = b.full_day := by
    unfold fdRank at hf
    cases hA : a.full_day <;> cases hB : b.full_day <;> simp_all
  have hst : a.start_time = b.start_time := by
    cases hA : a.start_time <;> cases hB : b.start_time <;> simp_all [optEnc]
  have het : a.end_time = b.end_time := by
    cases hA : a.end_time <;> cases hB : b.end_time <;> simp_all [optEnc]
  have hrs : a.resource_state = b.resource_state := by
    cases hA : a.resource_state <;> cases hB : b.resource_state <;>
      simp_all [State.idx]
  have hov : a.override = b.override := by
    cases hA : a.override <;> cases hB : b.override <;> simp_all [ovBit]
  cases a
  cases b
  simp_all

/-- Modelled from the spec (§4.2 step 3): the merge of two overlapping or
touching elements of the same working set and state, spanning
`min start_time` to `max end_time`; a merge involving a full-day element is
full-day. -/
def mergeTwo (a b : TimeElement) : TimeElement :=
  if a.full_day || b.full_day then
    { start_time := none, end_time := none, resource_state := a.resource_state,
      override := a.override, full_day := true }
  else
    { start_time := if elemStart a ≤ elemStart b then a.start_time else b.start_time,
      end_time := if elemEnd b ≤ elemEnd a then a.end_time else b.end_time,
      resource_state := a.resource_state,
      override := a.override,
      full_day := false }

/-- Sweep over a start-sorted run of same-state elements, merging each
element into the current accumulated interval when they overlap or touch
(§4.2 step 3). -/
def mergeRun (cur : TimeElement) : List TimeElement → List TimeElement
  | [] => [cur]
  | y :: ys =>
    if overlapsB cur y then mergeRun (mergeTwo cur y) ys
    else cur :: mergeRun y ys

/-- Modelled from the spec (§4.2 step 3): merge the overlapping or touching
elements of a start-sorted, same-state list. -/
def mergeSorted : List TimeElement → List TimeElement
  | [] => []
  | x :: xs => mergeRun x xs

/-- Modelled from the spec (§4.2 steps 1–2): partition by the override flag
and select the working set — the overriding elements if any exist, else the
normal elements. -/
def workingSet (xs : List TimeElement) : List TimeElement :=
  if (xs.filter fun e => e.override).isEmpty then xs.filter fun e => !e.override
  else xs.filter fun e => e.override

/-- The merged elements of one `resource_state` within a working set that
has already been sorted. -/
def stateGroup (s : State) (l : List TimeElement) : List TimeElement :=
  mergeSorted (l.filter fun e => e.resource_state == s)

/-- Modelled from the spec (§4.2): the Interval Combiner for
`hours.models.combine_and_apply_override` (the implementation is not in the
provided sources).  Partition by the override flag, keep the overriding
elements if any exist (discarding all normal elements), merge overlapping or
touching elements that share a `resource_state`, and return the result
sorted by `start_time` ascending with full-day elements first. -/
def combine_and_apply_override (xs : List TimeElement) : List TimeElement :=
  List.insertionSort teLE
    ((allStates.map fun s =>
      stateGroup s (List.insertionSort teLE (workingSet xs))).flatten)

/-- The element's comparison interval is non-degenerate: its start does not
exceed its end.  Every `full_day = true` element satisfies this regardless
of its `start_time`/`end_time` contents (its interval is the whole day,
§4.1); a `full_day = false` element satisfies it exactly when its start (an
unset start defaults to `0`) does not exceed its end (an unset end defaults
to the end of the day) — in particular whenever `start_time ≤ end_time`,
which the resolver's +24h extension of past-midnight ends re-establishes
(§4.4 step 4). -/
def properInterval (e : TimeElement) : Prop :=
  elemStart e ≤ elemEnd e

instance : DecidablePred properInterval := fun e => by
  unfold properInterval
  infer_instance

/-- Every minute covered by `e` is covered by some element of `xs`. -/
def coveredBy (xs : List TimeElement) (e : TimeElement) : Prop :=
  ∀ t, elemStart e ≤ t → t ≤ elemEnd e → ∃ a ∈ xs, elemStart a ≤ t ∧ t ≤ elemEnd a

/-- The ordering stated by the spec (§4.2 step 4): `start_time` ascending
with full-day elements first (no tiebreak). -/
def specLE (a b : TimeElement) : Prop :=
  fdRank a < fdRank b ∨ (fdRank a = fdRank b ∧ elemStart a ≤ elemStart b)

/-! ## Period Resolver model

`hours/models.py` is not part of the provided sources, so the resolver is
modelled from the spec (§3, §4.3, §4.4).  Dates are day ordinals; the
weekday of day `d` is `d % 7`. -/

/-- Recurrence frame of a Rule (§3). -/
inductive RuleContext where
  | period
  | year
  | month
deriving DecidableEq, Repr

/-- Counted unit of a Rule (§3, §4.3): a week, a day, or a specific
weekday. -/
inductive RuleSubject where
  | week
  | day
  | mon
  | tue
  | wed
  | thu
  | fri
  | sat
  | sun
deriving DecidableEq, Repr

/-- The weekday number of a weekday subject. -/
def RuleSubject.weekdayNum : RuleSubject → Option Nat
  | .mon => some 0
  | .tue => some 1
  | .wed => some 2
  | .thu => some 3
  | .fri => some 4
  | .sat => some 5
  | .sun => some 6
  | _ => none

/-- Modelled from the spec (§3): a recurrence filter. -/
structure Rule where
  context : RuleContext
  subject : RuleSubject
  start : Int
deriving DecidableEq, Repr

/-- Modelled from the spec (§3): a time-of-day interval with a state,
scoped to weekdays (empty list = all weekdays). -/
structure TimeSpan where
  start_time : Option Nat
  end_time : Option Nat
  resource_state : State
  weekdays : List Nat
  full_day : Bool
  end_time_on_next_day : Bool
deriving DecidableEq, Repr

/-- Modelled from the spec (§3): a grouping of Time Spans and Rules. -/
structure TimeSpanGroup where
  time_spans : List TimeSpan
  rules : List Rule
deriving DecidableEq, Repr

/-- Modelled from the spec (§3): a date range with a default state and an
override flag, owning Time-Span Groups.  `end_date = none` means
open-ended. -/
structure DatePeriod where
  start_date : Nat
  end_date : Option Nat
  resource_state : State
  override : Bool
  time_span_groups : List TimeSpanGroup
deriving DecidableEq, Repr

/-- Modelled from the spec (§3): a resource owns its Date Periods. -/
structure Resource where
  date_periods : List DatePeriod
deriving Repr

/-- `[start_date, end_date]` contains the date (§4.4 step 1); an unset end
date is open-ended. -/
def dateInPeriodB (p : DatePeriod) (d : Nat) : Bool :=
  decide (p.start_date ≤ d) &&
    (match p.end_date with
     | none => true
     | some e => decide (d ≤ e))

/-- First day of the recurrence frame (§4.3).  The `year` and `month`
frames of the civil calendar are abstracted to fixed-length frames; no claim
depends on their exact boundaries. -/
def frameFirst (c : RuleContext) (p : DatePeriod) (d : Nat) : Nat :=
  match c with
  | .period => p.start_date
  | .year => d - d % 365
  | .month => d - d % 30

/-- Last day of the recurrence frame, when bounded (§4.3). -/
def frameLast (c : RuleContext) (p : DatePeriod) (d : Nat) : Option Nat :=
  match c with
  | .period => p.end_date
  | .year => some (d - d % 365 + 364)
  | .month => some (d - d % 30 + 29)

/-- A signed ordinal selects the `idx`-th occurrence (1-based) out of
`total`; a negative ordinal counts from the end and needs a bounded frame
(§4.3). -/
def nthMatch (start : Int) (idx : Nat) (total : Option Nat) : Bool :=
  if 0 < start then Int.ofNat idx == start
  else
    match total with
    | none => false
    | some n => Int.ofNat idx == Int.ofNat n + start + 1

/-- Modelled from the spec (§4.3): does the rule fire on `d`?  Dates outside
the period never match; ordinal `0` is treated as "never matches". -/
def rule_matches (r : Rule) (p : DatePeriod) (d : Nat) : Bool :=
  if !dateInPeriodB p d then false
  else if r.start == 0 then false
  else
    let fs := frameFirst r.context p d
    let fl := frameLast r.context p d
    if d < fs then false
    else
      match r.subject with
      | .week => nthMatch r.start ((d - fs) / 7 + 1) (fl.map fun e => (e - fs) / 7 + 1)
      | .day => nthMatch r.start (d - fs + 1) (fl.map fun e => e - fs + 1)
      | w =>
        match w.weekdayNum with
        | none => false
        | some wd =>
          if d % 7 != wd then false
          else
            let firstOcc := fs + (wd + 7 - fs % 7) % 7
            if d < firstOcc then false
            else
              nthMatch r.start ((d - firstOcc) / 7 + 1)
                (fl.map fun e => if e < firstOcc then 0 else (e - firstOcc) / 7 + 1)

/-- Modelled from the spec (§4.4 step 4): materialize a Time Element from a
contributing Time Span, copying the span's fields, taking `override` from
the owning period, and extending a past-midnight end by 24h for comparison
purposes. -/
def span_to_element (ov : Bool) (ts : TimeSpan) : TimeElement :=
  { start_time := ts.start_time,
    end_time := if ts.end_time_on_next_day then ts.end_time.map (· + dayMinutes)
      else ts.end_time,
    resource_state := ts.resource_state,
    override := ov,
    full_day := ts.full_day }

/-- The span applies on `d` when its weekday set is empty or contains `d`'s
weekday (§4.4 step 4). -/
def spanAppliesB (d : Nat) (ts : TimeSpan) : Bool :=
  ts.weekdays.isEmpty || ts.weekdays.contains (d % 7)

/-- The group contributes its spans iff it has no rules or at least one
rule matches (§4.4 step 3). -/
def groupActiveB (p : DatePeriod) (d : Nat) (g : TimeSpanGroup) : Bool :=
  g.rules.isEmpty || g.rules.any fun r => rule_matches r p d

/-- Modelled from the spec (§4.4): the Period Resolver.  Select the periods
containing the date, expand the contributing spans of their active groups
into Time Elements, and delegate to the Interval Combiner (which implements
the override precedence). -/
def resolve (res : Resource) (d : Nat) : List TimeElement :=
  combine_and_apply_override <|
    (res.date_periods.filter fun p => dateInPeriodB p d).flatMap fun p =>
      (p.time_span_groups.filter (groupActiveB p d)).flatMap fun g =>
        (g.time_spans.filter (spanAppliesB d)).map (span_to_element p.override)

/-! ## Migration 0012

Model of `populate_end_time_on_next_day` from
`hours/migrations/0012_add_end_time_on_next_day_to_timespan.py`: the table
is a list of rows; rows whose `start_time` and `end_time` are both set get
`end_time_on_next_day := end_time ≤ start_time`, other rows are left
untouched. -/

/-- A `TimeSpan` database row as the migration sees it. -/
structure TimeSpanRow where
  start_time : Option Nat
  end_time : Option Nat
  end_time_on_next_day : Bool
deriving DecidableEq, Repr

/-- The populate step of migration 0012. -/
def populate_end_time_on_next_day (rows : List TimeSpanRow) : List TimeSpanRow :=
  rows.map fun ts =>
    match ts.start_time, ts.end_time with
    | some s, some e => { ts with end_time_on_next_day := decide (e ≤ s) }
    | _, _ => ts

/-! ## Importer `save_period`

Model of `Importer.save_period` from `hours/importer/base.py` over a
relational rendering of the ORM state: four tables plus a fresh-id counter.
The imperative deletion loop (for every existing period with the same
resource, name and dates: delete its groups' rules and spans, the groups,
then the period) is rendered by the equivalent filters. -/

/-- A stored `DatePeriod` row. -/
structure StoredPeriod where
  id : Nat
  resource : Nat
  name : String
  start_date : Nat
  end_date : Option Nat
  resource_state : State
  override : Bool
deriving DecidableEq, Repr

/-- A stored `TimeSpanGroup` row. -/
structure StoredGroup where
  id : Nat
  period_id : Nat
deriving DecidableEq, Repr

/-- A stored `TimeSpan` row (its time-of-day payload reuses `TimeSpan`). -/
structure StoredSpan where
  group_id : Nat
  span : TimeSpan
deriving DecidableEq, Repr

/-- A stored `Rule` row. -/
structure StoredRule where
  group_id : Nat
  rule : Rule
deriving DecidableEq, Repr

/-- The database state touched by `save_period`. -/
structure HoursDB where
  periods : List StoredPeriod
  groups : List StoredGroup
  spans : List StoredSpan
  rules : List StoredRule
  next_id : Nat
deriving DecidableEq, Repr

/-- Serialized data of one time-span group (`time_spans`, `rules`). -/
structure GroupData where
  time_spans : List TimeSpan
  rules : List Rule
deriving DecidableEq, Repr

/-- Serialized period data handed to `save_period`. -/
structure PeriodData where
  resource : Nat
  name : String
  start_date : Nat
  end_date : Option Nat
  resource_state : State
  override : Bool
  time_span_groups : List GroupData
deriving DecidableEq, Repr

/-- The lookup `DatePeriod.all_objects.filter(resource=…, name=…,
start_date=…, end_date=…)` of `save_period`. -/
def periodKeyMatches (data : PeriodData) (p : StoredPeriod) : Bool :=
  p.resource == data.resource && p.name == data.name &&
    p.start_date == data.start_date && p.end_date == data.end_date

/-- Fresh group rows for the supplied group data, ids starting at `n`. -/
def makeGroups (n pid : Nat) : List GroupData → List StoredGroup
  | [] => []
  | _ :: gs => { id := n, period_id := pid } :: makeGroups (n + 1) pid gs

/-- Span rows of the supplied group data, attached to group ids starting at
`n`. -/
def attachSpans (n : Nat) : List GroupData → List StoredSpan
  | [] => []
  | g :: gs =>
    (g.time_spans.map fun ts => { group_id := n, span := ts }) ++ attachSpans (n + 1) gs

/-- Rule rows of the supplied group data, attached to group ids starting at
`n`. -/
def attachRules (n : Nat) : List GroupData → List StoredRule
  | [] => []
  | g :: gs =>
    (g.rules.map fun r => { group_id := n, rule := r }) ++ attachRules (n + 1) gs

/-- `Importer.save_period` (`hours/importer/base.py`): delete every
previously existing period with the same resource, name and dates together
with its groups, spans and rules, then create the new period with the
supplied groups, spans and rules, and return it. -/
def save_period (db : HoursDB) (data : PeriodData) : HoursDB × StoredPeriod :=
  let deadIds := (db.periods.filter (periodKeyMatches data)).map (·.id)
  let deadGroupIds :=
    (db.groups.filter fun g => deadIds.contains g.period_id).map (·.id)
  let newPeriod : StoredPeriod :=
    { id := db.next_id, resource := data.resource, name := data.name,
      start_date := data.start_date, end_date := data.end_date,
      resource_state := data.resource_state, override := data.override }
  let firstGroupId := db.next_id + 1
  ({ periods :=
       (db.periods.filter fun p => !periodKeyMatches data p) ++ [newPeriod],
     groups :=
       (db.groups.filter fun g => !deadIds.contains g.period_id) ++
         makeGroups firstGroupId newPeriod.id data.time_span_groups,
     spans :=
       (db.spans.filter fun sp => !deadGroupIds.contains sp.group_id) ++
         attachSpans firstGroupId data.time_span_groups,
     rules :=
       (db.rules.filter fun r => !deadGroupIds.contains r.group_id) ++
         attachRules firstGroupId data.time_span_groups,
     next_id := firstGroupId + data.time_span_groups.length },
   newPeriod)

/-- Referential well-formedness of the database: every row id is below the
fresh-id counter. -/
def DBWellFormed (db : HoursDB) : Prop :=
  (∀ p ∈ db.periods, p.id < db.next_id) ∧
    (∀ g ∈ db.groups, g.id < db.next_id) ∧
    (∀ sp ∈ db.spans, sp.group_id < db.next_id) ∧
    (∀ r ∈ db.rules, r.group_id < db.next_id)

instance : DecidablePred DBWellFormed := fun db => by
  unfold DBWellFormed
  infer_instance

/-! ## Signed-request authentication

Model of `HaukiSignedAuthentication.authenticate` and
`validate_params_and_signature` from `hours/authentication.py`.  The pure
library functions the code calls out to — `hmac.new(...).hexdigest()` and
`dateutil.parser.parse` — are carried as function-valued fields of the
world, and timestamps are integers. -/

/-- Python's `str.lower`, restricted to what `compare_digest` needs. -/
def lowerStr (s : String) : String := String.mk (s.data.map Char.toLower)

/-- A `SignedAuthKey` row. -/
structure SignedAuthKey where
  data_source : String
  signing_key : String
  valid_after : Int
  valid_until : Option Int

/-- A Django user row, as far as `authenticate` observes it. -/
structure UserRec where
  username : String
  is_active : Bool
  has_usable_password : Bool
deriving DecidableEq, Repr

/-- An `Organization` row. -/
structure OrgRec where
  id : String
  data_source : String
deriving DecidableEq, Repr

/-- The world `authenticate` runs against: the current time, the relevant
tables, and the external pure functions. -/
structure AuthWorld where
  hmacFn : String → String → String
  parseFn : String → Option Int
  now : Int
  keys : List SignedAuthKey
  invalidatedSignatures : List String
  users : List UserRec
  organizations : List OrgRec
  dataSources : List String
  memberships : List (String × String)

/-- The recognized auth parameters of a request, after `get_auth_params`
(a missing key is `none`; Python treats an empty string like a missing
value). -/
structure AuthParams where
  source : Option String
  username : Option String
  created_at : Option String
  valid_until : Option String
  signature : Option String
  organization : Option String
  resource : Option String

/-- Python truthiness of an optional string parameter. -/
def presentParam : Option String → Bool
  | none => false
  | some s => !(s == "")

/-- `join_params`: concatenation of the non-signature parameters in field
order. -/
def join_params (p : AuthParams) : String :=
  (p.source.getD "") ++ (p.username.getD "") ++ (p.created_at.getD "") ++
    (p.valid_until.getD "") ++ (p.organization.getD "") ++ (p.resource.getD "")

/-- The failures of `validate_params_and_signature`:
`InsufficientParamsError`, `SignatureValidationError`, or the uncaught
`MultipleObjectsReturned` escaping from `SignedAuthKey.objects.get`. -/
inductive ValidationError where
  | insufficientParams
  | signatureValidation (msg : String)
  | multipleKeys
deriving DecidableEq, Repr

/-- The signing key rows matching the `SignedAuthKey.objects.get` query. -/
def matchingKeys (w : AuthWorld) (src : String) : List SignedAuthKey :=
  w.keys.filter fun k =>
    k.data_source == src && decide (k.valid_after < w.now) &&
      (match k.valid_until with
       | none => true
       | some vu => decide (w.now < vu))

/-- `validate_params_and_signature` (`hours/authentication.py`): the
required parameters must be present (non-empty), exactly one signing key
must match the source and be valid now, the lower-cased HMAC digests must
agree, `created_at` must parse and not lie in the future, and `valid_until`
must parse and not lie in the past. -/
def validate_params_and_signature (w : AuthWorld) (p : AuthParams) :
    Except ValidationError Unit :=
  if !(presentParam p.source && presentParam p.username &&
      presentParam p.created_at && presentParam p.valid_until &&
      presentParam p.signature) then
    .error .insufficientParams
  else
    match matchingKeys w (p.source.getD "") with
    | [] => .error (.signatureValidation "Invalid source")
    | [k] =>
      if !(lowerStr (p.signature.getD "") ==
          lowerStr (w.hmacFn k.signing_key (join_params p))) then
        .error (.signatureValidation "Invalid signature")
      else
        match w.parseFn (p.created_at.getD "") with
        | none => .error (.signatureValidation "Invalid created_at")
        | some created_at =>
          if w.now < created_at then
            .error (.signatureValidation "Invalid created_at")
          else
            match w.parseFn (p.valid_until.getD "") with
            | none => .error (.signatureValidation "Invalid valid_until")
            | some valid_until =>
              if valid_until < w.now then
                .error (.signatureValidation "Invalid valid_until")
              else .ok ()
    | _ => .error .multipleKeys

/-- Outcome of `authenticate`: `noAuth` models `return None` (let other
backends try), `success` models `return user, None`, `failed` models a
raised `AuthenticationFailed`, and `serverError` models an uncaught
exception. -/
inductive AuthOutcome where
  | noAuth
  | success (user : UserRec)
  | failed (msg : String)
  | serverError
deriving DecidableEq, Repr

/-- `HaukiSignedAuthentication.authenticate` (`hours/authentication.py`).
Returns the outcome together with the updated world (user creation and
organization-membership insertion mutate the database). -/
def authenticate (w : AuthWorld) (p : AuthParams) : AuthOutcome × AuthWorld :=
  match validate_params_and_signature w p with
  | .error .insufficientParams => (.noAuth, w)
  | .error (.signatureValidation msg) => (.failed msg, w)
  | .error .multipleKeys => (.serverError, w)
  | .ok _ =>
    if w.invalidatedSignatures.contains (p.signature.getD "") then
      (.failed "Signature has been invalidated", w)
    else
      let found := w.users.find? fun u => u.username == p.username.getD ""
      let user := found.getD
        { username := p.username.getD "", is_active := true,
          has_usable_password := false }
      let w1 :=
        match found with
        | some _ => w
        | none => { w with users := w.users ++ [user] }
      if !user.is_active then (.failed "User inactive or deleted.", w1)
      else
        if presentParam p.organization then
          match w1.organizations.find? fun o => o.id == p.organization.getD "" with
          | none => (.success user, w1)
          | some org =>
            if !(w1.dataSources.contains (p.source.getD "")) then
              (.serverError, w1)
            else if p.source.getD "" == org.data_source then
              if (user.username, org.id) ∈ w1.memberships then (.success user, w1)
              else
                (.success user,
                  { w1 with memberships := w1.memberships ++ [(user.username, org.id)] })
            else (.success user, w1)
        else (.success user, w1)

/-! ## Concrete fixtures (used by the reference-test examples and the
witnesses) -/

/-- 08:00–12:00 OPEN. -/
def teOpen0800_1200 : TimeElement := ⟨some 480, some 720, State.OPEN, false, false⟩

/-- 10:00–16:00 OPEN. -/
def teOpen1000_1600 : TimeElement := ⟨some 600, some 960, State.OPEN, false, false⟩

/-- 13:00–16:00 OPEN. -/
def teOpen1300_1600 : TimeElement := ⟨some 780, some 960, State.OPEN, false, false⟩

/-- 08:00–16:00 OPEN. -/
def teOpen0800_1600 : TimeElement := ⟨some 480, some 960, State.OPEN, false, false⟩

/-- CLOSED full-day override. -/
def teClosedFullOv : TimeElement := ⟨none, none, State.CLOSED, true, true⟩

/-- CLOSED 12:00–14:00 override. -/
def teClosed1200_1400Ov : TimeElement := ⟨some 720, some 840, State.CLOSED, true, false⟩

/-- CLOSED 09:00–11:00 override. -/
def teClosed0900_1100Ov : TimeElement := ⟨some 540, some 660, State.CLOSED, true, false⟩

/-- CLOSED 13:00–15:00 override. -/
def teClosed1300_1500Ov : TimeElement := ⟨some 780, some 900, State.CLOSED, true, false⟩

/-- A span fixture: 08:00–16:00 OPEN, all weekdays. -/
def demoSpan : TimeSpan := ⟨some 480, some 960, State.OPEN, [], false, false⟩

/-- A rule fixture: first week of the period. -/
def demoRule : Rule := ⟨RuleContext.period, RuleSubject.week, 1⟩

/-- A period covering days 10–20 with one unconditional group. -/
def demoPeriod : DatePeriod :=
  { start_date := 10, end_date := some 20, resource_state := State.OPEN,
    override := false, time_span_groups := [⟨[demoSpan], []⟩] }

/-- A resource owning `demoPeriod`. -/
def demoResource : Resource := ⟨[demoPeriod]⟩

/-- A database fixture with one period owning one group with one span and
one rule. -/
def demoDB : HoursDB :=
  { periods := [⟨0, 7, "Testperiod", 100, some 200, State.OPEN, false⟩],
    groups := [⟨1, 0⟩],
    spans := [⟨1, demoSpan⟩],
    rules := [⟨1, demoRule⟩],
    next_id := 2 }

/-- Period data matching the period of `demoDB` by resource, name and
dates. -/
def demoData : PeriodData :=
  { resource := 7, name := "Testperiod", start_date := 100, end_date := some 200,
    resource_state := State.CLOSED, override := false,
    time_span_groups := [⟨[demoSpan], [demoRule]⟩] }

/-- A signing-key fixture. -/
def demoKey : SignedAuthKey := ⟨"src", "k", -10, none⟩

/-- An auth world whose HMAC always yields `"sig"` and whose clock is 5;
`"c"` parses to 0 and everything else to 100. -/
def demoWorld : AuthWorld :=
  { hmacFn := fun _ _ => "sig",
    parseFn := fun s => if s == "c" then some 0 else some 100,
    now := 5, keys := [demoKey], invalidatedSignatures := [],
    users := [], organizations := [], dataSources := ["src"],
    memberships := [] }

/-- `demoWorld` with the signature `"sig"` invalidated. -/
def demoWorldInvalidated : AuthWorld :=
  { demoWorld with invalidatedSignatures := ["sig"] }

/-- Auth parameters that validate against `demoWorld`. -/
def demoParams : AuthParams :=
  { source := some "src", username := some "alice", created_at := some "c",
    valid_until := some "v", signature := some "sig", organization := none,
    resource := none }

/-! # Theorems -/

theorem mem_allStates (s : State) : s ∈ allStates := by
  cases s <;> simp [allStates]

/-- `test_combine_and_apply_override_full_day_override` from
`hours/tests/test_time_element.py`. -/
example :
    combine_and_apply_override [teOpen0800_1600, teClosedFullOv] =
      [teClosedFullOv] := by decide

/-- `test_combine_and_apply_override_combine_two_same`. -/
example :
    combine_and_apply_override [teOpen0800_1200, teOpen1000_1600] =
      [teOpen0800_1600] := by decide

/-- `test_combine_and_apply_override_two_separate`. -/
example :
    combine_and_apply_override [teOpen0800_1200, teOpen1300_1600] =
      [teOpen0800_1200, teOpen1300_1600] := by decide

/-- `test_combine_and_apply_override_one_overriding`. -/
example :
    combine_and_apply_override [teOpen0800_1600, teClosed1200_1400Ov] =
      [teClosed1200_1400Ov] := by decide

/-- `test_combine_and_apply_override_multiple_overriding`. -/
example :
    combine_and_apply_override
        [teOpen0800_1600, teClosed0900_1100Ov, teClosed1300_1500Ov] =
      [teClosed0900_1100Ov, teClosed1300_1500Ov] := by decide

/-! ## Basic combiner lemmas -/

theorem isEmpty_false_of_mem {α : Type} {a : α} {l : List α} (h : a ∈ l) :
    l.isEmpty = false := by
  cases l with
  | nil => cases h
  | cons x t => rfl

theorem mergeTwo_override (a b : TimeElement) :
    (mergeTwo a b).override = a.override := by
  unfold mergeTwo
  split <;> rfl

theorem mergeTwo_state (a b : TimeElement) :
    (mergeTwo a b).resource_state = a.resource_state := by
  unfold mergeTwo
  split <;> rfl

theorem elemStart_mergeTwo (a b : TimeElement) :
    elemStart (mergeTwo a b) = min (elemStart a) (elemStart b) := by
  unfold mergeTwo
  by_cases hf : (a.full_day || b.full_day) = true
  · rw [if_pos hf]
    have h0 :
        elemStart ⟨none, none, a.resource_state, a.override, true⟩ = 0 := by
      simp [elemStart]
    rw [h0]
    rcases Bool.or_eq_true_iff.mp hf with h | h
    · have ha : elemStart a = 0 := by simp [elemStart, h]
      omega
    · have hb : elemStart b = 0 := by simp [elemStart, h]
      omega
  · rw [if_neg hf]
    have hfa : a.full_day = false := by
      cases hA : a.full_day <;> simp_all
    have hfb : b.full_day = false := by
      cases hA : a.full_day <;> cases hB : b.full_day <;> simp_all
    simp only [elemStart, hfa, hfb, Bool.false_eq_true, if_false]
    split_ifs with h <;> omega

theorem full_day_properInterval {e : TimeElement} (h : e.full_day = true) :
    properInterval e := by
  unfold properInterval
  simp [elemStart, elemEnd, h, dayMinutes]

theorem mem_combine_iff {x : TimeElement} {xs : List TimeElement} :
    x ∈ combine_and_apply_override xs ↔
      ∃ s, x ∈ stateGroup s (List.insertionSort teLE (workingSet xs)) := by
  unfold combine_and_apply_override
  simp only [List.mem_insertionSort, List.mem_flatten, List.mem_map]
  constructor
  · rintro ⟨l, ⟨s, _, rfl⟩, hx⟩
    exact ⟨s, hx⟩
  · rintro ⟨s, hx⟩
    exact ⟨_, ⟨s, mem_allStates s, rfl⟩, hx⟩

theorem mergeRun_override {o : Bool} (ys : List TimeElement) :
    ∀ (cur : TimeElement), cur.override = o → (∀ y ∈ ys, y.override = o) →
      ∀ e ∈ mergeRun cur ys, e.override = o := by
  induction ys with
  | nil =>
    intro cur hc _ e he
    simp only [mergeRun, List.mem_singleton] at he
    subst he
    exact hc
  | cons y ys ih =>
    intro cur hc hys e he
    rw [mergeRun] at he
    by_cases hov : overlapsB cur y = true
    · rw [if_pos hov] at he
      exact ih (mergeTwo cur y) (by rw [mergeTwo_override]; exact hc)
        (fun z hz => hys z (List.mem_cons_of_mem _ hz)) e he
    · rw [if_neg hov] at he
      rcases List.mem_cons.mp he with rfl | he'
      · exact hc
      · exact ih y (hys y (List.mem_cons_self _ _))
          (fun z hz => hys z (List.mem_cons_of_mem _ hz)) e he'

theorem mergeSorted_override {o : Bool} {l : List TimeElement}
    (h : ∀ y ∈ l, y.override = o) : ∀ e ∈ mergeSorted l, e.override = o := by
  cases l with
  | nil => intro e he; cases he
  | cons x t =>
    intro e he
    exact mergeRun_override t x (h x (List.mem_cons_self _ _))
      (fun z hz => h z (List.mem_cons_of_mem _ hz)) e he

theorem mergeRun_state {s : State} (ys : List TimeElement) :
    ∀ (cur : TimeElement), cur.resource_state = s →
      (∀ y ∈ ys, y.resource_state = s) →
      ∀ e ∈ mergeRun cur ys, e.resource_state = s := by
  induction ys with
  | nil =>
    intro cur hc _ e he
    simp only [mergeRun, List.mem_singleton] at he
    subst he
    exact hc
  | cons y ys ih =>
    intro cur hc hys e he
    rw [mergeRun] at he
    by_cases hov : overlapsB cur y = true
    · rw [if_pos hov] at he
      exact ih (mergeTwo cur y) (by rw [mergeTwo_state]; exact hc)
        (fun z hz => hys z (List.mem_cons_of_mem _ hz)) e he
    · rw [if_neg hov] at he
      rcases List.mem_cons.mp he with rfl | he'
      · exact hc
      · exact ih y (hys y (List.mem_cons_self _ _))
          (fun z hz => hys z (List.mem_cons_of_mem _ hz)) e he'

theorem mergeSorted_state {s : State} {l : List TimeElement}
    (h : ∀ y ∈ l, y.resource_state = s) :
    ∀ e ∈ mergeSorted l, e.resource_state = s := by
  cases l with
  | nil => intro e he; cases he
  | cons x t =>
    intro e he
    exact mergeRun_state t x (h x (List.mem_cons_self _ _))
      (fun z hz => h z (List.mem_cons_of_mem _ hz)) e he

theorem workingSet_of_override_mem {xs : List TimeElement}
    (h : ∃ e ∈ xs, e.override = true) :
    workingSet xs = xs.filter fun e => e.override := by
  obtain ⟨e, he, ho⟩ := h
  have hmem : e ∈ xs.filter fun e => e.override := List.mem_filter.mpr ⟨he, ho⟩
  unfold workingSet
  rw [if_neg (by simp [isEmpty_false_of_mem hmem])]

theorem combine_congr_workingSet {xs ys : List TimeElement}
    (h : workingSet xs = workingSet ys) :
    combine_and_apply_override xs = combine_and_apply_override ys := by
  unfold combine_and_apply_override
  rw [h]

/-- C1: if the input contains at least one overriding Time Element, the
combiner's result only depends on the overriding elements (all elements with
`override = false` are discarded entirely), and every element of the result
has `override = true`. -/
theorem claimC1_override_dominance (xs : List TimeElement)
    (h : ∃ e ∈ xs, e.override = true) :
    combine_and_apply_override xs =
        combine_and_apply_override (xs.filter fun e => e.override) ∧
      ∀ e ∈ combine_and_apply_override xs, e.override = true := by
  have hw : workingSet xs = xs.filter fun e => e.override :=
    workingSet_of_override_mem h
  constructor
  · obtain ⟨e, he, ho⟩ := h
    have hw2 : workingSet (xs.filter fun e => e.override) =
        xs.filter fun e => e.override := by
      rw [workingSet_of_override_mem ⟨e, List.mem_filter.mpr ⟨he, ho⟩, ho⟩]
      exact List.filter_eq_self.mpr fun a ha => (List.mem_filter.mp ha).2
    exact combine_congr_workingSet (hw.trans hw2.symm)
  · intro e he
    rcases mem_combine_iff.mp he with ⟨s, hs⟩
    refine mergeSorted_override (fun y hy => ?_) e hs
    have hy1 : y ∈ workingSet xs :=
      (List.mem_insertionSort teLE).mp (List.mem_filter.mp hy).1
    rw [hw] at hy1
    exact (List.mem_filter.mp hy1).2

/-- Witness for C1 at the fixture of
`test_combine_and_apply_override_one_overriding`. -/
theorem claimC1_witness :
    (∃ e ∈ [teOpen0800_1600, teClosed1200_1400Ov], e.override = true) ∧
      (combine_and_apply_override [teOpen0800_1600, teClosed1200_1400Ov] =
          combine_and_apply_override
            ([teOpen0800_1600, teClosed1200_1400Ov].filter fun e => e.override) ∧
        ∀ e ∈ combine_and_apply_override [teOpen0800_1600, teClosed1200_1400Ov],
          e.override = true) :=
  ⟨by decide, claimC1_override_dominance _ (by decide)⟩

theorem workingSet_pair {a b : TimeElement} (h : b.override = a.override) :
    workingSet [a, b] = [a, b] := by
  unfold workingSet
  cases hov : a.override <;> rw [hov] at h <;> simp [List.filter, hov, h]

/-- C2: two elements of the working set that overlap or touch and share the
same `resource_state` (and override flag) merge into a single element
spanning `min start_time` to `max end_time`. -/
theorem claimC2_merge_same_state (a b : TimeElement) (sa ea sb eb : Nat)
    (hfa : a.full_day = false) (hfb : b.full_day = false)
    (hsa : a.start_time = some sa) (hea : a.end_time = some ea)
    (hsb : b.start_time = some sb) (heb : b.end_time = some eb)
    (hst : b.resource_state = a.resource_state)
    (hov : b.override = a.override)
    (hol : max sa sb ≤ min ea eb) :
    combine_and_apply_override [a, b] =
      [⟨some (min sa sb), some (max ea eb), a.resource_state, a.override,
        false⟩] := by
  have hes_a : elemStart a = sa := by simp [elemStart, hfa, hsa]
  have hee_a : elemEnd a = ea := by simp [elemEnd, hfa, hea]
  have hes_b : elemStart b = sb := by simp [elemStart, hfb, hsb]
  have hee_b : elemEnd b = eb := by simp [elemEnd, hfb, heb]
  have hob : overlapsB a b = true := by
    simp only [overlapsB, hes_a, hee_a, hes_b, hee_b, Bool.and_eq_true,
      decide_eq_true_eq]
    omega
  have hob' : overlapsB b a = true := by
    simp only [overlapsB, hes_a, hee_a, hes_b, hee_b, Bool.and_eq_true,
      decide_eq_true_eq]
    omega
  have hm1 : mergeTwo a b =
      ⟨some (min sa sb), some (max ea eb), a.resource_state, a.override,
        false⟩ := by
    unfold mergeTwo
    rw [if_neg (by simp [hfa, hfb])]
    have h1 : (if elemStart a ≤ elemStart b then a.start_time else b.start_time) =
        some (min sa sb) := by
      rw [hes_a, hes_b, hsa, hsb]
      split <;> simp <;> omega
    have h2 : (if elemEnd b ≤ elemEnd a then a.end_time else b.end_time) =
        some (max ea eb) := by
      rw [hee_a, hee_b, hea, heb]
      split <;> simp <;> omega
    rw [h1, h2]
  have hm2 : mergeTwo b a =
      ⟨some (min sa sb), some (max ea eb), a.resource_state, a.override,
        false⟩ := by
    unfold mergeTwo
    rw [if_neg (by simp [hfa, hfb])]
    have h1 : (if elemStart b ≤ elemStart a then b.start_time else a.start_time) =
        some (min sa sb) := by
      rw [hes_a, hes_b, hsa, hsb]
      split <;> simp <;> omega
    have h2 : (if elemEnd a ≤ elemEnd b then b.end_time else a.end_time) =
        some (max ea eb) := by
      rw [hee_a, hee_b, hea, heb]
      split <;> simp <;> omega
    rw [h1, h2, hst, hov]
  unfold combine_and_apply_override
  simp only [workingSet_pair hov]
  by_cases hab : teLE a b
  · have hsort : List.insertionSort teLE [a, b] = [a, b] := by
      simp [List.insertionSort, List.orderedInsert, hab]
    simp only [hsort]
    cases hA : a.resource_state <;> rw [hA] at hst <;>
      simp [allStates, stateGroup, List.filter, hA, hst, mergeSorted,
        mergeRun, hob, hm1, hA ▸ hm1, List.insertionSort, List.orderedInsert]
  · have hsort : List.insertionSort teLE [a, b] = [b, a] := by
      simp [List.insertionSort, List.orderedInsert, hab]
    simp only [hsort]
    cases hA : a.resource_state <;> rw [hA] at hst <;>
      simp [allStates, stateGroup, List.filter, hA, hst, mergeSorted,
        mergeRun, hob', hm2, hA ▸ hm2, List.insertionSort, List.orderedInsert]

/-- Witness for C2 at the fixture of
`test_combine_and_apply_override_combine_two_same`. -/
theorem claimC2_witness :
    max 480 600 ≤ min 720 960 ∧
      combine_and_apply_override [teOpen0800_1200, teOpen1000_1600] =
        [⟨some (min 480 600), some (max 720 960), State.OPEN, false, false⟩] :=
  ⟨by decide,
    claimC2_merge_same_state teOpen0800_1200 teOpen1000_1600 480 720 600 960
      rfl rfl rfl rfl rfl rfl rfl rfl (by decide)⟩

/-- C3 as stated is false on the reference behaviour: merging
`OPEN 08:00–12:00` with `OPEN 10:00–16:00` (the fixture of
`test_combine_and_apply_override_combine_two_same`) produces
`OPEN 08:00–16:00`, whose interval is contained in no single input
element. -/
theorem claimC3_counterexample :
    ¬ ∀ e ∈ combine_and_apply_override [teOpen0800_1200, teOpen1000_1600],
        ∃ a ∈ [teOpen0800_1200, teOpen1000_1600],
          elemStart a ≤ elemStart e ∧ elemEnd e ≤ elemEnd a := by decide

theorem coveredBy_self {a : TimeElement} {xs : List TimeElement} (h : a ∈ xs) :
    coveredBy xs a := fun _t h1 h2 => ⟨a, h, h1, h2⟩

theorem coveredBy_mono {xs ys : List TimeElement} {e : TimeElement}
    (hsub : ∀ a ∈ xs, a ∈ ys) (h : coveredBy xs e) : coveredBy ys e := by
  intro t h1 h2
  obtain ⟨a, ha, h3, h4⟩ := h t h1 h2
  exact ⟨a, hsub a ha, h3, h4⟩

theorem coveredBy_trans {l l' : List TimeElement} {e : TimeElement}
    (h : coveredBy l e) (h' : ∀ a ∈ l, coveredBy l' a) : coveredBy l' e := by
  intro t h1 h2
  obtain ⟨a, ha, h3, h4⟩ := h t h1 h2
  exact h' a ha t h3 h4

theorem elemEnd_mergeTwo_of_not_full {a b : TimeElement}
    (hfa : a.full_day = false) (hfb : b.full_day = false) :
    elemEnd (mergeTwo a b) = max (elemEnd a) (elemEnd b) := by
  unfold mergeTwo
  rw [if_neg (by simp [hfa, hfb])]
  simp only [elemEnd, hfa, hfb, Bool.false_eq_true, if_false]
  split_ifs with h <;> omega

theorem mergeTwo_coveredBy {a b : TimeElement} (hov : overlapsB a b = true) :
    coveredBy [a, b] (mergeTwo a b) := by
  have hov' : elemStart a ≤ elemEnd b ∧ elemStart b ≤ elemEnd a := by
    simpa [overlapsB, Bool.and_eq_true, decide_eq_true_eq] using hov
  intro t h1 h2
  by_cases hf : (a.full_day || b.full_day) = true
  · have hm : mergeTwo a b =
        ⟨none, none, a.resource_state, a.override, true⟩ := by
      unfold mergeTwo
      rw [if_pos hf]
    rw [hm] at h2
    have h2' : t ≤ dayMinutes := by simpa [elemEnd] using h2
    rcases Bool.or_eq_true_iff.mp hf with h | h
    · exact ⟨a, by simp, by simp [elemStart, h], by simp [elemEnd, h, h2']⟩
    · exact ⟨b, by simp, by simp [elemStart, h], by simp [elemEnd, h, h2']⟩
  · have hfa : a.full_day = false := by
      cases hA : a.full_day <;> simp_all
    have hfb : b.full_day = false := by
      cases hA : a.full_day <;> cases hB : b.full_day <;> simp_all
    rw [elemStart_mergeTwo] at h1
    rw [elemEnd_mergeTwo_of_not_full hfa hfb] at h2
    by_cases hta : t ≤ elemEnd a
    · by_cases hta2 : elemStart a ≤ t
      · exact ⟨a, by simp, hta2, hta⟩
      · exact ⟨b, by simp, by omega, by omega⟩
    · exact ⟨b, by simp, by omega, by omega⟩

theorem mergeRun_coveredBy (ys : List TimeElement) :
    ∀ (cur : TimeElement), ∀ e ∈ mergeRun cur ys, coveredBy (cur :: ys) e := by
  induction ys with
  | nil =>
    intro cur e he
    simp only [mergeRun, List.mem_singleton] at he
    subst he
    exact coveredBy_self (by simp)
  | cons y ys ih =>
    intro cur e he
    rw [mergeRun] at he
    by_cases hov : overlapsB cur y = true
    · rw [if_pos hov] at he
      refine coveredBy_trans (ih (mergeTwo cur y) e he) ?_
      intro a ha
      rcases List.mem_cons.mp ha with rfl | ha'
      · refine coveredBy_mono ?_ (mergeTwo_coveredBy hov)
        intro z hz
        rcases List.mem_cons.mp hz with rfl | hz'
        · exact List.mem_cons_self _ _
        · simp only [List.mem_singleton] at hz'
          subst hz'
          exact List.mem_cons_of_mem _ (List.mem_cons_self _ _)
      · exact coveredBy_self (by simp [ha'])
    · rw [if_neg hov] at he
      rcases List.mem_cons.mp he with rfl | he'
      · exact coveredBy_self (by simp)
      · refine coveredBy_mono ?_ (ih y e he')
        intro z hz
        exact List.mem_cons_of_mem _ hz

theorem mergeSorted_coveredBy {l : List TimeElement} :
    ∀ e ∈ mergeSorted l, coveredBy l e := by
  cases l with
  | nil => intro e he; cases he
  | cons x t => exact mergeRun_coveredBy t x

/-- C3 amended: the combiner never invents time outside its inputs — every
minute covered by a resolved Time Element is covered by some input element
(containment in the union of the inputs, not in a single input). -/
theorem claimC3_amended_containment (xs : List TimeElement) (e : TimeElement)
    (he : e ∈ combine_and_apply_override xs) : coveredBy xs e := by
  rcases mem_combine_iff.mp he with ⟨s, hs⟩
  refine coveredBy_mono ?_ (mergeSorted_coveredBy e hs)
  intro a ha
  have h2 : a ∈ workingSet xs :=
    (List.mem_insertionSort teLE).mp (List.mem_filter.mp ha).1
  unfold workingSet at h2
  by_cases hemp : ((xs.filter fun e => e.override).isEmpty) = true
  · rw [if_pos hemp] at h2
    exact (List.mem_filter.mp h2).1
  · rw [if_neg hemp] at h2
    exact (List.mem_filter.mp h2).1

/-- Witness for the amended C3 at the fixture of
`test_combine_and_apply_override_combine_two_same`. -/
theorem claimC3_amended_witness :
    teOpen0800_1600 ∈
        combine_and_apply_override [teOpen0800_1200, teOpen1000_1600] ∧
      coveredBy [teOpen0800_1200, teOpen1000_1600] teOpen0800_1600 :=
  ⟨by decide, claimC3_amended_containment _ _ (by decide)⟩

theorem isEmpty_eq_of_perm {α : Type} {l1 l2 : List α} (h : l1.Perm l2) :
    l1.isEmpty = l2.isEmpty := by
  have hlen := h.length_eq
  cases l1 <;> cases l2 <;> simp_all

theorem workingSet_perm {xs ys : List TimeElement} (h : xs.Perm ys) :
    (workingSet xs).Perm (workingSet ys) := by
  unfold workingSet
  rw [isEmpty_eq_of_perm (h.filter _)]
  by_cases hemp : ((ys.filter fun e => e.override).isEmpty) = true
  · rw [if_pos hemp, if_pos hemp]
    exact h.filter _
  · rw [if_neg hemp, if_neg hemp]
    exact h.filter _

/-- C5: the combiner is order-independent — permuting the input leaves the
result equal as a set of Time Elements (in this model the result is in fact
identical as a list, which entails the set equality). -/
theorem claimC5_order_independent (xs ys : List TimeElement) (h : xs.Perm ys) :
    (∀ e, e ∈ combine_and_apply_override ys ↔
        e ∈ combine_and_apply_override xs) ∧
      combine_and_apply_override ys = combine_and_apply_override xs := by
  have hsort : List.insertionSort teLE (workingSet xs) =
      List.insertionSort teLE (workingSet ys) :=
    List.eq_of_perm_of_sorted
      ((List.perm_insertionSort _ _).trans
        ((workingSet_perm h).trans (List.perm_insertionSort _ _).symm))
      (List.sorted_insertionSort teLE _) (List.sorted_insertionSort teLE _)
  have heq : combine_and_apply_override ys = combine_and_apply_override xs := by
    unfold combine_and_apply_override
    simp only [← hsort]
  exact ⟨fun e => by rw [heq], heq⟩

/-- Witness for C5: swapping the two disjoint fixtures of
`test_combine_and_apply_override_two_separate`. -/
theorem claimC5_witness :
    ([teOpen0800_1200, teOpen1300_1600].Perm
        [teOpen1300_1600, teOpen0800_1200]) ∧
      ((∀ e, e ∈ combine_and_apply_override
            [teOpen1300_1600, teOpen0800_1200] ↔
          e ∈ combine_and_apply_override [teOpen0800_1200, teOpen1300_1600]) ∧
        combine_and_apply_override [teOpen1300_1600, teOpen0800_1200] =
          combine_and_apply_override [teOpen0800_1200, teOpen1300_1600]) :=
  ⟨by decide, claimC5_order_independent _ _ (by decide)⟩

theorem overlapsB_comm (a b : TimeElement) : overlapsB a b = overlapsB b a := by
  unfold overlapsB
  rw [Bool.and_comm]

theorem mergeRun_of_chain (ys : List TimeElement) :
    ∀ (cur : TimeElement),
      List.Chain (fun a b => overlapsB a b = false) cur ys →
      mergeRun cur ys = cur :: ys := by
  induction ys with
  | nil => intro cur _; rfl
  | cons y ys ih =>
    intro cur h
    rcases List.chain_cons.mp h with ⟨h1, h2⟩
    rw [mergeRun, if_neg (by simp [h1]), ih y h2]

theorem mergeSorted_of_pairwise {l : List TimeElement}
    (h : l.Pairwise fun a b => overlapsB a b = false) : mergeSorted l = l := by
  cases l with
  | nil => rfl
  | cons x t =>
    have hc : List.Chain (fun a b => overlapsB a b = false) x t := h.chain'
    exact mergeRun_of_chain t x hc

theorem stateFilters_perm (l : List TimeElement) :
    ((allStates.map fun s => l.filter fun e => e.resource_state == s).flatten).Perm
      l := by
  rw [List.perm_iff_count]
  intro a
  have key : ∀ s : State,
      List.count a (l.filter fun e => e.resource_state == s) =
        if a.resource_state = s then List.count a l else 0 := by
    intro s
    by_cases hs : a.resource_state = s
    · rw [if_pos hs]
      exact List.count_filter (by simp [hs])
    · rw [if_neg hs]
      refine List.count_eq_zero.mpr fun hmem => ?_
      have h2 := (List.mem_filter.mp hmem).2
      simp only [beq_iff_eq] at h2
      exact hs h2
  simp only [allStates, List.map_cons, List.map_nil, List.flatten_cons,
    List.flatten_nil, List.count_append, List.append_nil, key]
  cases ha : a.resource_state <;> simp

theorem teLE_specLE {a b : TimeElement} (h : teLE a b) : specLE a b := by
  unfold teLE at h
  rcases h with h | ⟨h1, h2⟩
  · exact Or.inl h
  · right
    refine ⟨h1, ?_⟩
    by_cases hfa : a.full_day = true
    · have hfb : b.full_day = true := by
        unfold fdRank at h1
        cases hB : b.full_day <;> simp_all
      simp [elemStart, hfa, hfb]
    · have hfa' : a.full_day = false := by
        cases hA : a.full_day <;> simp_all
      have hfb : b.full_day = false := by
        unfold fdRank at h1
        cases hB : b.full_day <;> simp_all
      simp only [elemStart, hfa', hfb, Bool.false_eq_true, if_false]
      have hle : optEnc a.start_time ≤ optEnc b.start_time := by omega
      cases hsa : a.start_time <;> cases hsb : b.start_time <;>
        simp_all [optEnc]

/-- C6: pairwise disjoint, non-touching, non-overriding inputs pass through
the combiner unchanged (as a permutation of the input), and the output is
sorted by `start_time` ascending with full-day elements first. -/
theorem claimC6_disjoint_unchanged_sorted (xs : List TimeElement)
    (hov : ∀ e ∈ xs, e.override = false)
    (hdisj : xs.Pairwise fun a b => overlapsB a b = false) :
    (combine_and_apply_override xs).Perm xs ∧
      List.Sorted specLE (combine_and_apply_override xs) := by
  have hw : workingSet xs = xs := by
    unfold workingSet
    have hnil : (xs.filter fun e => e.override) = [] :=
      List.filter_eq_nil_iff.mpr fun a ha => by simp [hov a ha]
    rw [hnil]
    simp only [List.isEmpty_nil, if_true]
    exact List.filter_eq_self.mpr fun a ha => by simp [hov a ha]
  have hperm_ws : (List.insertionSort teLE xs).Perm xs :=
    List.perm_insertionSort _ _
  have hdisj_ws :
      (List.insertionSort teLE xs).Pairwise fun a b => overlapsB a b = false := by
    rw [List.Perm.pairwise_iff
      (fun {x y} (h : overlapsB x y = false) =>
        (overlapsB_comm y x).trans h) hperm_ws]
    exact hdisj
  have hgroups : ∀ s ∈ allStates,
      stateGroup s (List.insertionSort teLE (workingSet xs)) =
        (List.insertionSort teLE xs).filter fun e => e.resource_state == s := by
    intro s _
    rw [hw]
    exact mergeSorted_of_pairwise (hdisj_ws.filter _)
  have hflat :
      ((allStates.map fun s =>
        stateGroup s (List.insertionSort teLE (workingSet xs))).flatten).Perm
        xs := by
    rw [List.map_congr_left hgroups]
    exact (stateFilters_perm _).trans hperm_ws
  constructor
  · exact (List.perm_insertionSort teLE _).trans hflat
  · exact (List.sorted_insertionSort teLE _).imp fun h => teLE_specLE h

/-- Witness for C6 at the fixture of
`test_combine_and_apply_override_two_separate`. -/
theorem claimC6_witness :
    (∀ e ∈ [teOpen0800_1200, teOpen1300_1600], e.override = false) ∧
      ([teOpen0800_1200, teOpen1300_1600].Pairwise fun a b =>
        overlapsB a b = false) ∧
      ((combine_and_apply_override [teOpen0800_1200, teOpen1300_1600]).Perm
          [teOpen0800_1200, teOpen1300_1600] ∧
        List.Sorted specLE
          (combine_and_apply_override [teOpen0800_1200, teOpen1300_1600])) :=
  ⟨by decide, by decide,
    claimC6_disjoint_unchanged_sorted _ (by decide) (by decide)⟩

theorem teLE_elemStart_le {a b : TimeElement} (h : teLE a b) :
    elemStart a ≤ elemStart b := by
  rcases teLE_specLE h with h1 | ⟨_, h2⟩
  · have hfa : a.full_day = true := by
      unfold fdRank at h1
      cases hA : a.full_day <;> cases hB : b.full_day <;> simp_all
    simp [elemStart, hfa]
  · exact h2

theorem teLE_full_day_false {a b : TimeElement} (h : teLE a b)
    (ha : a.full_day = false) : b.full_day = false := by
  cases hB : b.full_day
  · rfl
  · exfalso
    have h1 : fdRank a = 1 := by simp [fdRank, ha]
    have h2 : fdRank b = 0 := by simp [fdRank, hB]
    unfold teLE at h
    omega

theorem start_some_of_pos {e : TimeElement} (hf : e.full_day = false)
    (h : 0 < elemStart e) : e.start_time = some (elemStart e) := by
  cases hs : e.start_time
  · simp [elemStart, hf, hs] at h
  · simp [elemStart, hf, hs]

theorem optEnc_start_lt {a b : TimeElement} (hfa : a.full_day = false)
    (hfb : b.full_day = false) (h : elemStart a < elemStart b) :
    optEnc a.start_time < optEnc b.start_time := by
  have hb' : b.start_time = some (elemStart b) :=
    start_some_of_pos hfb (by omega)
  cases hsa : a.start_time
  · rw [hb']
    simp [optEnc]
  · rw [hb']
    have ha2 : a.start_time.getD 0 = elemStart a := by simp [elemStart, hfa]
    rw [hsa] at ha2
    simp only [Option.getD_some] at ha2
    simp only [optEnc]
    omega

theorem mergeTwo_proper {a b : TimeElement} (ha : properInterval a)
    (hb : properInterval b) : properInterval (mergeTwo a b) := by
  have ha' : elemStart a ≤ elemEnd a := ha
  have hb' : elemStart b ≤ elemEnd b := hb
  unfold properInterval
  by_cases hf : (a.full_day || b.full_day) = true
  · have h1 : mergeTwo a b =
        ⟨none, none, a.resource_state, a.override, true⟩ := by
      unfold mergeTwo
      rw [if_pos hf]
    rw [h1]
    simp [elemStart, elemEnd]
  · have hfa : a.full_day = false := by
      cases hA : a.full_day <;> simp_all
    have hfb : b.full_day = false := by
      cases hA : a.full_day <;> cases hB : b.full_day <;> simp_all
    rw [elemStart_mergeTwo, elemEnd_mergeTwo_of_not_full hfa hfb]
    omega

theorem mergeTwo_full_day (a b : TimeElement) :
    (mergeTwo a b).full_day = (a.full_day || b.full_day) := by
  unfold mergeTwo
  split <;> simp_all

theorem overlapsB_eq_false_of {a b : TimeElement}
    (h : elemEnd a < elemStart b) : overlapsB a b = false := by
  have h2 : decide (elemStart b ≤ elemEnd a) = false := by
    simp only [decide_eq_false_iff_not]
    omega
  simp [overlapsB, h2]

theorem mergeRun_main (s : State) (o : Bool) (ys : List TimeElement) :
    ∀ cur : TimeElement,
      properInterval cur → cur.resource_state = s → cur.override = o →
      (∀ y ∈ ys, properInterval y ∧ y.resource_state = s ∧ y.override = o) →
      List.Sorted teLE ys →
      (∀ y ∈ ys, elemStart cur ≤ elemStart y) →
      (cur.full_day = true ∨ ∀ y ∈ ys, y.full_day = false) →
      List.Sorted teLE (mergeRun cur ys) ∧
        (mergeRun cur ys).Pairwise (fun a b => overlapsB a b = false) ∧
        (∀ e ∈ mergeRun cur ys,
          properInterval e ∧ e.resource_state = s ∧ e.override = o ∧
            elemStart cur ≤ elemStart e ∧
            (e.full_day = true → cur.full_day = true)) := by
  induction ys with
  | nil =>
    intro cur hwf hst hov _ _ _ _
    refine ⟨List.sorted_singleton _, List.pairwise_singleton _ _, ?_⟩
    intro e he
    simp only [mergeRun, List.mem_singleton] at he
    subst he
    exact ⟨hwf, hst, hov, le_refl _, fun h => h⟩
  | cons y t ih =>
    intro cur hwf hst hov hall hsorted hstart hfd
    obtain ⟨hy_wf, hy_st, hy_ov⟩ := hall y (List.mem_cons_self _ _)
    have hall_t : ∀ z ∈ t,
        properInterval z ∧ z.resource_state = s ∧ z.override = o :=
      fun z hz => hall z (List.mem_cons_of_mem _ hz)
    have hsorted_t : List.Sorted teLE t := (List.sorted_cons.mp hsorted).2
    have hrel_t : ∀ z ∈ t, teLE y z := (List.sorted_cons.mp hsorted).1
    rw [mergeRun]
    by_cases hovl : overlapsB cur y = true
    · rw [if_pos hovl]
      have hm_wf : properInterval (mergeTwo cur y) := mergeTwo_proper hwf hy_wf
      have hm_st : (mergeTwo cur y).resource_state = s := by
        rw [mergeTwo_state]
        exact hst
      have hm_ov : (mergeTwo cur y).override = o := by
        rw [mergeTwo_override]
        exact hov
      have hm_start : ∀ z ∈ t, elemStart (mergeTwo cur y) ≤ elemStart z := by
        intro z hz
        rw [elemStart_mergeTwo]
        exact le_trans (min_le_left _ _) (hstart z (List.mem_cons_of_mem _ hz))
      have hm_fd : (mergeTwo cur y).full_day = true ∨
          ∀ z ∈ t, z.full_day = false := by
        rw [mergeTwo_full_day]
        rcases hfd with h | h
        · left
          simp [h]
        · right
          exact fun z hz => h z (List.mem_cons_of_mem _ hz)
      obtain ⟨o_sorted, o_pw, o_props⟩ :=
        ih (mergeTwo cur y) hm_wf hm_st hm_ov hall_t hsorted_t hm_start hm_fd
      refine ⟨o_sorted, o_pw, ?_⟩
      intro e he
      obtain ⟨p1, p2, p3, p4, p5⟩ := o_props e he
      refine ⟨p1, p2, p3, ?_, ?_⟩
      · have h1 := hstart y (List.mem_cons_self _ _)
        rw [elemStart_mergeTwo] at p4
        omega
      · intro h5
        have h6 := p5 h5
        rw [mergeTwo_full_day] at h6
        rcases Bool.or_eq_true_iff.mp h6 with h7 | h7
        · exact h7
        · rcases hfd with h8 | h8
          · exact h8
          · exact absurd h7 (by simp [h8 y (List.mem_cons_self _ _)])
    · rw [if_neg hovl]
      have hy_start : ∀ z ∈ t, elemStart y ≤ elemStart z :=
        fun z hz => teLE_elemStart_le (hrel_t z hz)
      have hy_fd : y.full_day = true ∨ ∀ z ∈ t, z.full_day = false := by
        cases hyf : y.full_day
        · right
          exact fun z hz => teLE_full_day_false (hrel_t z hz) hyf
        · left
          rfl
      obtain ⟨o_sorted, o_pw, o_props⟩ :=
        ih y hy_wf hy_st hy_ov hall_t hsorted_t hy_start hy_fd
      have hnov : ¬(elemStart cur ≤ elemEnd y ∧ elemStart y ≤ elemEnd cur) := by
        intro hcon
        exact hovl (by
          simp only [overlapsB, Bool.and_eq_true, decide_eq_true_eq]
          exact hcon)
      have hkey : ∀ e ∈ mergeRun y t, teLE cur e ∧ overlapsB cur e = false := by
        intro e he
        obtain ⟨e_wf, e_st, e_ov, e_start, e_fd⟩ := o_props e he
        cases hcf : cur.full_day
        · have hyf : y.full_day = false := by
            rcases hfd with h | h
            · rw [h] at hcf
              cases hcf
            · exact h y (List.mem_cons_self _ _)
          have hef : e.full_day = false := by
            cases hef' : e.full_day
            · rfl
            · exact absurd (e_fd hef') (by simp [hyf])
          have hcle : elemStart cur ≤ elemEnd cur := hwf
          have hyle : elemStart y ≤ elemEnd y := hy_wf
          have h1 : elemStart cur ≤ elemStart y :=
            hstart y (List.mem_cons_self _ _)
          have h2 : elemEnd cur < elemStart y := by omega
          constructor
          · unfold teLE
            right
            have hr1 : fdRank cur = 1 := by simp [fdRank, hcf]
            have hr2 : fdRank e = 1 := by simp [fdRank, hef]
            refine ⟨hr1.trans hr2.symm, Or.inl ?_⟩
            exact optEnc_start_lt hcf hef (by omega)
          · exact overlapsB_eq_false_of (by omega)
        · have hyf : y.full_day = false := by
            cases hyf' : y.full_day
            · rfl
            · exact absurd hnov (by
                simp [elemStart, elemEnd, hcf, hyf'])
          have hef : e.full_day = false := by
            cases hef' : e.full_day
            · rfl
            · exact absurd (e_fd hef') (by simp [hyf])
          have hsc : elemStart cur = 0 := by simp [elemStart, hcf]
          have hec : elemEnd cur = dayMinutes := by simp [elemEnd, hcf]
          have h2 : dayMinutes < elemStart y := by
            rw [hsc, hec] at hnov
            omega
          constructor
          · unfold teLE
            left
            simp [fdRank, hcf, hef]
          · exact overlapsB_eq_false_of (by omega)
      refine ⟨?_, ?_, ?_⟩
      · rw [List.sorted_cons]
        exact ⟨fun b hb => (hkey b hb).1, o_sorted⟩
      · rw [List.pairwise_cons]
        exact ⟨fun b hb => (hkey b hb).2, o_pw⟩
      · intro e he
        rcases List.mem_cons.mp he with rfl | he'
        · exact ⟨hwf, hst, hov, le_refl _, fun h => h⟩
        · obtain ⟨p1, p2, p3, p4, p5⟩ := o_props e he'
          refine ⟨p1, p2, p3,
            le_trans (hstart y (List.mem_cons_self _ _)) p4, ?_⟩
          intro h5
          have h6 := p5 h5
          rcases hfd with h7 | h7
          · exact h7
          · exact absurd h6 (by simp [h7 y (List.mem_cons_self _ _)])

theorem mergeSorted_main (s : State) (o : Bool) (l : List TimeElement)
    (hall : ∀ y ∈ l, properInterval y ∧ y.resource_state = s ∧ y.override = o)
    (hsorted : List.Sorted teLE l) :
    List.Sorted teLE (mergeSorted l) ∧
      (mergeSorted l).Pairwise (fun a b => overlapsB a b = false) ∧
      ∀ e ∈ mergeSorted l,
        properInterval e ∧ e.resource_state = s ∧ e.override = o := by
  cases l with
  | nil =>
    exact ⟨List.sorted_nil, List.Pairwise.nil,
      fun e he => absurd he (List.not_mem_nil e)⟩
  | cons x t =>
    obtain ⟨hx_wf, hx_st, hx_ov⟩ := hall x (List.mem_cons_self _ _)
    have hfd : x.full_day = true ∨ ∀ y ∈ t, y.full_day = false := by
      cases hxf : x.full_day
      · right
        exact fun z hz =>
          teLE_full_day_false ((List.sorted_cons.mp hsorted).1 z hz) hxf
      · left
        rfl
    obtain ⟨h1, h2, h3⟩ := mergeRun_main s o t x hx_wf hx_st hx_ov
      (fun z hz => hall z (List.mem_cons_of_mem _ hz))
      (List.sorted_cons.mp hsorted).2
      (fun z hz => teLE_elemStart_le ((List.sorted_cons.mp hsorted).1 z hz))
      hfd
    exact ⟨h1, h2, fun e he =>
      ⟨(h3 e he).1, (h3 e he).2.1, (h3 e he).2.2.1⟩⟩

theorem workingSet_subset {xs : List TimeElement} :
    ∀ e ∈ workingSet xs, e ∈ xs := by
  intro e he
  unfold workingSet at he
  by_cases hemp : ((xs.filter fun e => e.override).isEmpty) = true
  · rw [if_pos hemp] at he
    exact (List.mem_filter.mp he).1
  · rw [if_neg hemp] at he
    exact (List.mem_filter.mp he).1

theorem workingSet_override_homogeneous (xs : List TimeElement) :
    ∃ o : Bool, ∀ e ∈ workingSet xs, e.override = o := by
  unfold workingSet
  by_cases hemp : ((xs.filter fun e => e.override).isEmpty) = true
  · rw [if_pos hemp]
    exact ⟨false, fun e he => by simpa using (List.mem_filter.mp he).2⟩
  · rw [if_neg hemp]
    exact ⟨true, fun e he => (List.mem_filter.mp he).2⟩

/-- C7: if no Date Period of the resource contains the date, `resolve`
returns the empty sequence (the resolver is a total function, so no error
can be raised; the empty result is an ordinary value). -/
theorem claimC7_resolve_empty_outside_periods (res : Resource) (d : Nat)
    (h : ∀ p ∈ res.date_periods, dateInPeriodB p d = false) :
    resolve res d = [] := by
  unfold resolve
  have hfil : (res.date_periods.filter fun p => dateInPeriodB p d) = [] :=
    List.filter_eq_nil_iff.mpr fun p hp => by simp [h p hp]
  rw [hfil]
  rfl

/-- Witness for C7: `demoResource`'s only period covers days 10–20, and day
5 resolves to the empty schedule. -/
theorem claimC7_witness :
    (∀ p ∈ demoResource.date_periods, dateInPeriodB p 5 = false) ∧
      resolve demoResource 5 = [] :=
  ⟨by decide, claimC7_resolve_empty_outside_periods _ _ (by decide)⟩

/-- C8: after the populate step of migration 0012, every row with both
times set has `end_time_on_next_day` equal to `end_time ≤ start_time`. -/
theorem claimC8_migration_end_time_on_next_day (rows : List TimeSpanRow)
    (ts : TimeSpanRow) (hts : ts ∈ populate_end_time_on_next_day rows)
    (s e : Nat) (hs : ts.start_time = some s) (he : ts.end_time = some e) :
    ts.end_time_on_next_day = decide (e ≤ s) := by
  unfold populate_end_time_on_next_day at hts
  rcases List.mem_map.mp hts with ⟨r, _, heq⟩
  subst heq
  rcases hrs : r.start_time with _ | s' <;> rcases hre : r.end_time with _ | e' <;>
    simp_all

/-- Witness for C8: a 22:00–02:00 row gets the flag set, with
`120 ≤ 1320`. -/
theorem claimC8_witness :
    (⟨some 1320, some 120, true⟩ : TimeSpanRow) ∈
        populate_end_time_on_next_day [⟨some 1320, some 120, false⟩] ∧
      (⟨some 1320, some 120, true⟩ : TimeSpanRow).end_time_on_next_day =
        decide (120 ≤ 1320) :=
  ⟨by decide,
    claimC8_migration_end_time_on_next_day [⟨some 1320, some 120, false⟩]
      ⟨some 1320, some 120, true⟩ (by decide) 1320 120 rfl rfl⟩

theorem nat_contains_iff {l : List Nat} {a : Nat} :
    l.contains a = true ↔ a ∈ l := by
  simp [List.contains, List.elem_iff]

theorem mem_makeGroups {gs : List GroupData} :
    ∀ {n pid : Nat} {g : StoredGroup}, g ∈ makeGroups n pid gs →
      g.period_id = pid ∧ n ≤ g.id := by
  induction gs with
  | nil => intro n pid g h; cases h
  | cons x xs ih =>
    intro n pid g h
    rcases List.mem_cons.mp h with rfl | h'
    · exact ⟨rfl, le_refl _⟩
    · obtain ⟨h1, h2⟩ := ih h'
      exact ⟨h1, by omega⟩

theorem makeGroups_mem (gs : List GroupData) :
    ∀ (n pid i : Nat), i < gs.length →
      ({ id := n + i, period_id := pid } : StoredGroup) ∈ makeGroups n pid gs := by
  induction gs with
  | nil => intro n pid i hi; simp at hi
  | cons x xs ih =>
    intro n pid i hi
    cases i with
    | zero => simp [makeGroups]
    | succ j =>
      have h2 : n + (j + 1) = (n + 1) + j := by omega
      rw [h2]
      exact List.mem_cons_of_mem _ (ih (n + 1) pid j (by simpa using hi))

theorem mem_attachSpans_ge {gs : List GroupData} :
    ∀ {n : Nat} {sp : StoredSpan}, sp ∈ attachSpans n gs → n ≤ sp.group_id := by
  induction gs with
  | nil => intro n sp h; cases h
  | cons x xs ih =>
    intro n sp h
    rcases List.mem_append.mp h with h' | h'
    · rcases List.mem_map.mp h' with ⟨ts, _, rfl⟩
      exact le_refl _
    · have := ih h'
      omega

theorem mem_attachRules_ge {gs : List GroupData} :
    ∀ {n : Nat} {r : StoredRule}, r ∈ attachRules n gs → n ≤ r.group_id := by
  induction gs with
  | nil => intro n r h; cases h
  | cons x xs ih =>
    intro n r h
    rcases List.mem_append.mp h with h' | h'
    · rcases List.mem_map.mp h' with ⟨ru, _, rfl⟩
      exact le_refl _
    · have := ih h'
      omega

theorem attachSpans_filter (gs : List GroupData) :
    ∀ (n i : Nat) (hi : i < gs.length),
      ((attachSpans n gs).filter fun sp => sp.group_id == n + i).map (·.span) =
        (gs.get ⟨i, hi⟩).time_spans := by
  induction gs with
  | nil => intro n i hi; simp at hi
  | cons x xs ih =>
    intro n i hi
    rw [attachSpans, List.filter_append]
    cases i with
    | zero =>
      have h1 : ((x.time_spans.map fun ts =>
          ({ group_id := n, span := ts } : StoredSpan)).filter fun sp =>
            sp.group_id == n + 0) =
          x.time_spans.map fun ts => ({ group_id := n, span := ts } : StoredSpan) := by
        refine List.filter_eq_self.mpr fun sp hsp => ?_
        rcases List.mem_map.mp hsp with ⟨ts, _, rfl⟩
        simp
      have h2 : ((attachSpans (n + 1) xs).filter fun sp =>
          sp.group_id == n + 0) = [] := by
        refine List.filter_eq_nil_iff.mpr fun sp hsp => ?_
        have := mem_attachSpans_ge hsp
        simp only [beq_iff_eq]
        omega
      rw [h1, h2, List.append_nil, List.map_map]
      have h3 : ∀ l : List TimeSpan,
          List.map ((fun sp : StoredSpan => sp.span) ∘ fun ts =>
            ({ group_id := n, span := ts } : StoredSpan)) l = l := by
        intro l
        induction l with
        | nil => rfl
        | cons a t iht => simp [iht]
      rw [h3]
      rfl
    | succ j =>
      have h1 : ((x.time_spans.map fun ts =>
          ({ group_id := n, span := ts } : StoredSpan)).filter fun sp =>
            sp.group_id == n + (j + 1)) = [] := by
        refine List.filter_eq_nil_iff.mpr fun sp hsp => ?_
        rcases List.mem_map.mp hsp with ⟨ts, _, rfl⟩
        simp only [beq_iff_eq]
        omega
      have h2 : n + (j + 1) = (n + 1) + j := by omega
      rw [h1, List.nil_append, h2, ih (n + 1) j (by simpa using hi)]
      simp [List.get]

theorem attachRules_filter (gs : List GroupData) :
    ∀ (n i : Nat) (hi : i < gs.length),
      ((attachRules n gs).filter fun r => r.group_id == n + i).map (·.rule) =
        (gs.get ⟨i, hi⟩).rules := by
  induction gs with
  | nil => intro n i hi; simp at hi
  | cons x xs ih =>
    intro n i hi
    rw [attachRules, List.filter_append]
    cases i with
    | zero =>
      have h1 : ((x.rules.map fun ru =>
          ({ group_id := n, rule := ru } : StoredRule)).filter fun r =>
            r.group_id == n + 0) =
          x.rules.map fun ru => ({ group_id := n, rule := ru } : StoredRule) := by
        refine List.filter_eq_self.mpr fun r hr => ?_
        rcases List.mem_map.mp hr with ⟨ru, _, rfl⟩
        simp
      have h2 : ((attachRules (n + 1) xs).filter fun r =>
          r.group_id == n + 0) = [] := by
        refine List.filter_eq_nil_iff.mpr fun r hr => ?_
        have := mem_attachRules_ge hr
        simp only [beq_iff_eq]
        omega
      rw [h1, h2, List.append_nil, List.map_map]
      have h3 : ∀ l : List Rule,
          List.map ((fun r : StoredRule => r.rule) ∘ fun ru =>
            ({ group_id := n, rule := ru } : StoredRule)) l = l := by
        intro l
        induction l with
        | nil => rfl
        | cons a t iht => simp [iht]
      rw [h3]
      rfl
    | succ j =>
      have h1 : ((x.rules.map fun ru =>
          ({ group_id := n, rule := ru } : StoredRule)).filter fun r =>
            r.group_id == n + (j + 1)) = [] := by
        refine List.filter_eq_nil_iff.mpr fun r hr => ?_
        rcases List.mem_map.mp hr with ⟨ru, _, rfl⟩
        simp only [beq_iff_eq]
        omega
      have h2 : n + (j + 1) = (n + 1) + j := by omega
      rw [h1, List.nil_append, h2, ih (n + 1) j (by simpa using hi)]
      simp [List.get]

/-- C9: `save_period`, given data matching an existing period of the same
resource, name, start date and end date, deletes that period together with
all of its groups, spans and rules, and creates and returns the new period
carrying the supplied groups, spans and rules. -/
theorem claimC9_save_period_cascade (db : HoursDB) (data : PeriodData)
    (hwf : DBWellFormed db) (p : StoredPeriod) (hp : p ∈ db.periods)
    (hkey : periodKeyMatches data p = true) :
    p ∉ (save_period db data).1.periods ∧
      (∀ g ∈ (save_period db data).1.groups, g.period_id ≠ p.id) ∧
      (∀ g ∈ db.groups, g.period_id = p.id →
        ∀ sp ∈ (save_period db data).1.spans, sp.group_id ≠ g.id) ∧
      (∀ g ∈ db.groups, g.period_id = p.id →
        ∀ r ∈ (save_period db data).1.rules, r.group_id ≠ g.id) ∧
      ((save_period db data).2 ∈ (save_period db data).1.periods ∧
        (save_period db data).2.resource = data.resource ∧
        (save_period db data).2.name = data.name ∧
        (save_period db data).2.start_date = data.start_date ∧
        (save_period db data).2.end_date = data.end_date ∧
        (save_period db data).2.resource_state = data.resource_state ∧
        (save_period db data).2.override = data.override) ∧
      ∀ i (hi : i < data.time_span_groups.length), ∃ gid : Nat,
        ({ id := gid, period_id := (save_period db data).2.id } : StoredGroup) ∈
            (save_period db data).1.groups ∧
          (((save_period db data).1.spans.filter fun sp =>
            sp.group_id == gid).map (·.span) =
            (data.time_span_groups.get ⟨i, hi⟩).time_spans) ∧
          (((save_period db data).1.rules.filter fun r =>
            r.group_id == gid).map (·.rule) =
            (data.time_span_groups.get ⟨i, hi⟩).rules) := by
  obtain ⟨hwf1, hwf2, hwf3, hwf4⟩ := hwf
  have hpid : p.id < db.next_id := hwf1 p hp
  have hper : (save_period db data).1.periods =
      (db.periods.filter fun q => !periodKeyMatches data q) ++
        [(save_period db data).2] := rfl
  have hid : (save_period db data).2.id = db.next_id := rfl
  have hgr : (save_period db data).1.groups =
      (db.groups.filter fun g =>
        !(((db.periods.filter (periodKeyMatches data)).map (·.id)).contains
          g.period_id)) ++
        makeGroups (db.next_id + 1) db.next_id data.time_span_groups := rfl
  have hsp : (save_period db data).1.spans =
      (db.spans.filter fun sp =>
        !(((db.groups.filter fun g =>
          ((db.periods.filter (periodKeyMatches data)).map (·.id)).contains
            g.period_id).map (·.id)).contains sp.group_id)) ++
        attachSpans (db.next_id + 1) data.time_span_groups := rfl
  have hru : (save_period db data).1.rules =
      (db.rules.filter fun r =>
        !(((db.groups.filter fun g =>
          ((db.periods.filter (periodKeyMatches data)).map (·.id)).contains
            g.period_id).map (·.id)).contains r.group_id)) ++
        attachRules (db.next_id + 1) data.time_span_groups := rfl
  have hdead : p.id ∈ (db.periods.filter (periodKeyMatches data)).map (·.id) :=
    List.mem_map.mpr ⟨p, List.mem_filter.mpr ⟨hp, hkey⟩, rfl⟩
  refine ⟨?_, ?_, ?_, ?_, ⟨?_, rfl, rfl, rfl, rfl, rfl, rfl⟩, ?_⟩
  · intro hcon
    rw [hper] at hcon
    rcases List.mem_append.mp hcon with h | h
    · have h2 := (List.mem_filter.mp h).2
      rw [hkey] at h2
      cases h2
    · simp only [List.mem_singleton] at h
      have h3 : p.id = db.next_id := by rw [h, hid]
      omega
  · intro g hg
    rw [hgr] at hg
    rcases List.mem_append.mp hg with h | h
    · have h2 := (List.mem_filter.mp h).2
      intro hcon
      rw [hcon] at h2
      rw [nat_contains_iff.mpr hdead] at h2
      cases h2
    · have h2 := (mem_makeGroups h).1
      rw [h2]
      omega
  · intro g hg hgp sp hsp'
    rw [hsp] at hsp'
    rcases List.mem_append.mp hsp' with h | h
    · have h2 := (List.mem_filter.mp h).2
      intro hcon
      have hgdead : g.id ∈ (db.groups.filter fun g =>
          ((db.periods.filter (periodKeyMatches data)).map (·.id)).contains
            g.period_id).map (·.id) :=
        List.mem_map.mpr ⟨g, List.mem_filter.mpr
          ⟨hg, by rw [hgp]; exact nat_contains_iff.mpr hdead⟩, rfl⟩
      rw [hcon, nat_contains_iff.mpr hgdead] at h2
      cases h2
    · have h2 := mem_attachSpans_ge h
      have h3 := hwf2 g hg
      omega
  · intro g hg hgp r hr'
    rw [hru] at hr'
    rcases List.mem_append.mp hr' with h | h
    · have h2 := (List.mem_filter.mp h).2
      intro hcon
      have hgdead : g.id ∈ (db.groups.filter fun g =>
          ((db.periods.filter (periodKeyMatches data)).map (·.id)).contains
            g.period_id).map (·.id) :=
        List.mem_map.mpr ⟨g, List.mem_filter.mpr
          ⟨hg, by rw [hgp]; exact nat_contains_iff.mpr hdead⟩, rfl⟩
      rw [hcon, nat_contains_iff.mpr hgdead] at h2
      cases h2
    · have h2 := mem_attachRules_ge h
      have h3 := hwf2 g hg
      omega
  · rw [hper]
    exact List.mem_append.mpr (Or.inr (List.mem_singleton.mpr rfl))
  · intro i hi
    refine ⟨db.next_id + 1 + i, ?_, ?_, ?_⟩
    · rw [hgr, hid]
      exact List.mem_append.mpr
        (Or.inr (makeGroups_mem data.time_span_groups (db.next_id + 1)
          db.next_id i hi))
    · rw [hsp, List.filter_append]
      have h1 : ((db.spans.filter fun sp =>
          !(((db.groups.filter fun g =>
            ((db.periods.filter (periodKeyMatches data)).map (·.id)).contains
              g.period_id).map (·.id)).contains sp.group_id)).filter fun sp =>
          sp.group_id == db.next_id + 1 + i) = [] := by
        refine List.filter_eq_nil_iff.mpr fun sp hsp2 => ?_
        have h2 := hwf3 sp (List.mem_filter.mp hsp2).1
        simp only [beq_iff_eq]
        omega
      rw [h1, List.nil_append]
      exact attachSpans_filter data.time_span_groups (db.next_id + 1) i hi
    · rw [hru, List.filter_append]
      have h1 : ((db.rules.filter fun r =>
          !(((db.groups.filter fun g =>
            ((db.periods.filter (periodKeyMatches data)).map (·.id)).contains
              g.period_id).map (·.id)).contains r.group_id)).filter fun r =>
          r.group_id == db.next_id + 1 + i) = [] := by
        refine List.filter_eq_nil_iff.mpr fun r hr2 => ?_
        have h2 := hwf4 r (List.mem_filter.mp hr2).1
        simp only [beq_iff_eq]
        omega
      rw [h1, List.nil_append]
      exact attachRules_filter data.time_span_groups (db.next_id + 1) i hi

/-- Witness for C9 at `demoDB`/`demoData`: the stored period 0 matches the
incoming data and is cascade-deleted before the new period is created. -/
theorem claimC9_witness :
    DBWellFormed demoDB ∧
      (⟨0, 7, "Testperiod", 100, some 200, State.OPEN, false⟩ : StoredPeriod) ∈
        demoDB.periods ∧
      periodKeyMatches demoData
        ⟨0, 7, "Testperiod", 100, some 200, State.OPEN, false⟩ = true ∧
      (⟨0, 7, "Testperiod", 100, some 200, State.OPEN, false⟩ : StoredPeriod) ∉
        (save_period demoDB demoData).1.periods :=
  ⟨by decide, by decide, by decide,
    (claimC9_save_period_cascade demoDB demoData (by decide) _ (by decide)
      (by decide)).1⟩

theorem validate_ok_key {w : AuthWorld} {p : AuthParams}
    (h : validate_params_and_signature w p = .ok ()) :
    ∃ k ∈ w.keys, k.data_source = p.source.getD "" := by
  unfold validate_params_and_signature at h
  split at h
  · cases h
  · split at h
    · cases h
    · rename_i k heq
      refine ⟨k, ?_, ?_⟩
      · have hk : k ∈ matchingKeys w (p.source.getD "") := by
          rw [heq]
          exact List.mem_singleton_self k
        exact (List.mem_filter.mp hk).1
      · have hk : k ∈ matchingKeys w (p.source.getD "") := by
          rw [heq]
          exact List.mem_singleton_self k
        have h2 := (List.mem_filter.mp hk).2
        simp only [Bool.and_eq_true, beq_iff_eq] at h2
        exact h2.1.1
    · cases h

/-- C10 as stated is false on the code: a request whose parameters pass
`validate_params_and_signature` is still rejected (before any user lookup)
when its signature has been invalidated via `SignedAuthEntry`, so no user is
created or returned even though the username is unknown. -/
theorem claimC10_counterexample :
    validate_params_and_signature demoWorldInvalidated demoParams = .ok () ∧
      (demoWorldInvalidated.users.find? fun u =>
        u.username == demoParams.username.getD "") = none ∧
      (authenticate demoWorldInvalidated demoParams).1 =
        .failed "Signature has been invalidated" ∧
      ∀ u : UserRec,
        (authenticate demoWorldInvalidated demoParams).1 ≠ .success u := by
  refine ⟨rfl, rfl, rfl, ?_⟩
  intro u hcon
  rw [show (authenticate demoWorldInvalidated demoParams).1 =
    .failed "Signature has been invalidated" from rfl] at hcon
  cases hcon

/-- C10 amended: if the parameters pass signature validation, the signature
has not been invalidated, and the username matches no existing user (on a
database where every signing key's data source exists, as the foreign key
guarantees), then a fresh active user with that username and an unusable
password is created and returned as the authenticated user. -/
theorem claimC10_amended_creates_user (w : AuthWorld) (p : AuthParams)
    (hval : validate_params_and_signature w p = .ok ())
    (hinv : w.invalidatedSignatures.contains (p.signature.getD "") = false)
    (hnouser : (w.users.find? fun u => u.username == p.username.getD "") = none)
    (hfk : ∀ k ∈ w.keys, w.dataSources.contains k.data_source = true) :
    ∃ u : UserRec,
      (authenticate w p).1 = .success u ∧
        u.username = p.username.getD "" ∧
        u.is_active = true ∧
        u.has_usable_password = false ∧
        (authenticate w p).2.users = w.users ++ [u] := by
  obtain ⟨k, hk, hks⟩ := validate_ok_key hval
  have hds : w.dataSources.contains (p.source.getD "") = true := by
    rw [← hks]
    exact hfk k hk
  have hmain : (authenticate w p).1 =
      .success ⟨p.username.getD "", true, false⟩ ∧
      (authenticate w p).2.users =
        w.users ++ [(⟨p.username.getD "", true, false⟩ : UserRec)] := by
    unfold authenticate
    rw [hval]
    simp only [hnouser, hinv, Bool.false_eq_true, if_false]
    cases horg : p.organization with
    | none => simp [presentParam]
    | some orgId =>
      by_cases hoe : orgId = ""
      · simp [presentParam, hoe]
      · rcases hfind : (w.organizations.find? fun o => o.id == orgId) with _ | org
        · simp [presentParam, hoe, hfind]
        · simp only [presentParam, Option.getD_some, hfind, hds]
          simp [hoe, hds]
          split_ifs <;> simp
  exact ⟨⟨p.username.getD "", true, false⟩, hmain.1, rfl, rfl, rfl, hmain.2⟩

/-- Witness for the amended C10 at `demoWorld`/`demoParams`: the unknown
user `"alice"` is created and returned. -/
theorem claimC10_witness :
    validate_params_and_signature demoWorld demoParams = .ok () ∧
      demoWorld.invalidatedSignatures.contains
        (demoParams.signature.getD "") = false ∧
      (demoWorld.users.find? fun u =>
        u.username == demoParams.username.getD "") = none ∧
      (∀ k ∈ demoWorld.keys,
        demoWorld.dataSources.contains k.data_source = true) ∧
      ∃ u : UserRec,
        (authenticate demoWorld demoParams).1 = .success u ∧
          u.username = demoParams.username.getD "" ∧
          u.is_active = true ∧
          u.has_usable_password = false ∧
          (authenticate demoWorld demoParams).2.users =
            demoWorld.users ++ [u] :=
  ⟨rfl, rfl, rfl, by decide,
    claimC10_amended_creates_user demoWorld demoParams rfl rfl rfl
      (by decide)⟩
